import Mathlib

/-!
Verification development for the screener2019-mcp repository.

The admin console's TypeScript service layer (`mcp-admin-ui/src/services`)
and form components are embedded directly as Lean functions.  The Python
backend (endpoint pool allocator, aggregation engine) is documented in the
repository (CLAUDE.md, DATABASE_SETUP.md) but its source is not part of the
material; those operations are modelled from the specification, as noted on
each such definition.
-/

namespace S2P

/-! ## Data model: Virtual Server (MCP server) records

Mirrors `McpServer` from `mcp-admin-ui/src/services/mcpServers.ts`:
`{ id?, name, endpoint, source_ids, created_at?, updated_at? }`. -/

structure McpServer where
  id : Option String
  name : String
  endpoint : String
  source_ids : List String
  created_at : Option String
  updated_at : Option String
  deriving Repr, DecidableEq

/-- The type `UpdateMcpServerData` from `mcpServers.ts`, an `Omit` of `McpServer`
without `id`, `endpoint`, `created_at`, `updated_at`: the update payload carries only `name` and `source_ids`.
`updateMcpServer` sends a `Partial<UpdateMcpServerData>`, so each field may be
absent; an absent field leaves the stored value alone. -/
structure UpdateMcpServerData where
  name : Option String
  source_ids : Option (List String)
  deriving Repr, DecidableEq

/-- The type `CreateMcpServerData` from `mcpServers.ts`, the same `Omit` of
`McpServer`: the create payload carries only `name` and `source_ids`;
there is no endpoint field for the client to supply. -/
structure CreateMcpServerData where
  name : String
  source_ids : List String
  deriving Repr, DecidableEq

/-- The `McpServerForm` component's `formData` state
(`McpServerForm.tsx` lines 22-25): exactly a `name` and a `source_ids` list;
the edit form has no writable endpoint field. -/
structure McpServerFormData where
  name : String
  source_ids : List String
  deriving Repr, DecidableEq

/-- The payload `handleSubmit` passes to `onSubmit` (`McpServerForm.tsx`
lines 58-61): the form state itself, i.e. both fields present. -/
def formSubmitPayload (fd : McpServerFormData) : UpdateMcpServerData :=
  { name := some fd.name, source_ids := some fd.source_ids }

/-- Modelled from the spec: `ServerStore.update (excluding endpoint)` —
the PUT handler for `/api/v1/mcp-servers/:id` is not among the provided
sources; per the spec the update writes the payload's `name` / `source_ids`
onto the stored record and the endpoint is "never reassigned on update". -/
def applyUpdate (s : McpServer) (u : UpdateMcpServerData) : McpServer :=
  { s with
    name := u.name.getD s.name
    source_ids := u.source_ids.getD s.source_ids }

/-! ## Source-selection toggle (`McpServerForm.tsx` lines 49-56)

```ts
source_ids: prev.source_ids.includes(sourceId)
  ? prev.source_ids.filter(id => id !== sourceId)
  : [...prev.source_ids, sourceId]
```
-/

def handleSourceToggle (source_ids : List String) (sourceId : String) : List String :=
  if source_ids.contains sourceId then
    source_ids.filter (fun id => id != sourceId)
  else
    source_ids ++ [sourceId]

/-! ## Log query construction (`mcp-admin-ui/src/services/logs.ts` lines 33-50)

`getLogs` appends each query parameter only when the corresponding option is
truthy in JavaScript: an absent field, the number `0` and the empty string
are all falsy and produce no parameter. -/

structure GetLogsParams where
  limit : Option Nat
  offset : Option Nat
  operation : Option String
  level : Option String
  correlation_id : Option String
  deriving Repr, DecidableEq

/-- JavaScript truthiness of an optional number: `undefined` and `0` are falsy. -/
def natTruthy : Option Nat → Bool
  | none => false
  | some n => n ≠ 0

/-- JavaScript truthiness of an optional string: `undefined` and `""` are falsy. -/
def strTruthy : Option String → Bool
  | none => false
  | some s => !s.isEmpty

/-- One conditional `searchParams.append` step for a numeric option. -/
def appendNat (key : String) (v : Option Nat) : List (String × String) :=
  match v with
  | some n => if n ≠ 0 then [(key, toString n)] else []
  | none => []

/-- One conditional `searchParams.append` step for a string option. -/
def appendStr (key : String) (v : Option String) : List (String × String) :=
  match v with
  | some s => if !s.isEmpty then [(key, s)] else []
  | none => []

/-- The `URLSearchParams` accumulated by `getLogs`, in append order. -/
def getLogsSearchParams (p : GetLogsParams) : List (String × String) :=
  appendNat "limit" p.limit ++
  appendNat "offset" p.offset ++
  appendStr "operation" p.operation ++
  appendStr "level" p.level ++
  appendStr "correlation_id" p.correlation_id

/-- Rendering of `searchParams.toString()`: `k1=v1&k2=v2&...`. -/
def searchParamsToString (ps : List (String × String)) : String :=
  String.intercalate "&" (ps.map (fun kv => kv.1 ++ "=" ++ kv.2))

/-- The request URL `getLogs` passes to `api.get`. -/
def getLogsUrl (p : GetLogsParams) : String :=
  "/api/v1/logs?" ++ searchParamsToString (getLogsSearchParams p)

/-! ## Server store and endpoint pool allocator

The backend repository (`mcp_server_repository.py`) is not among the provided
sources; the store state and its operations are modelled from the spec.  A row
mirrors the documented `mcp_servers` schema: name, endpoint, `source_ids`,
and a soft-deletion mark (`deleted_at` timestamp, modelled as a Bool). -/

structure ServerRow where
  sid : Nat
  name : String
  endpoint : String
  source_ids : List String
  deleted : Bool
  deriving Repr, DecidableEq

structure StoreState where
  rows : List ServerRow
  nextId : Nat
  deriving Repr, DecidableEq

def emptyStore : StoreState := ⟨[], 0⟩

/-- The non-soft-deleted rows, in creation order. -/
def liveRows (st : StoreState) : List ServerRow :=
  st.rows.filter (fun r => !r.deleted)

/-- The endpoints currently held by non-soft-deleted Virtual Servers. -/
def usedEndpoints (st : StoreState) : List String :=
  (liveRows st).map ServerRow.endpoint

inductive AllocError where
  | PoolExhausted
  deriving Repr, DecidableEq

/-- Modelled from the spec: `allocate() -> endpoint` of the Endpoint Pool
Allocator (`main.py` / `mcp_server_repository.py`, not among the provided
sources).  It "scans existing non-soft-deleted Virtual Servers' assigned
endpoints, returns the first candidate not currently in that used set; fails
with `PoolExhausted` if every candidate is in use".  The pool is the parsed
`MCP_GATEWAY_URL_POOLS` list. -/
def allocate (pool : List String) (st : StoreState) : Except AllocError String :=
  match pool.find? (fun c => !(usedEndpoints st).contains c) with
  | some e => .ok e
  | none => .error .PoolExhausted

/-- Modelled from the spec: `ServerStore.create (with pool-allocated endpoint)`
— the POST handler for `/api/v1/mcp-servers` is not among the provided
sources.  The client payload (`CreateMcpServerData`, from `mcpServers.ts`)
has no endpoint field; the endpoint comes from `allocate` alone. -/
def createServer (pool : List String) (st : StoreState) (d : CreateMcpServerData) :
    Except AllocError (StoreState × ServerRow) :=
  match allocate pool st with
  | .error e => .error e
  | .ok ep =>
    let row : ServerRow :=
      { sid := st.nextId, name := d.name, endpoint := ep
        source_ids := d.source_ids, deleted := false }
    .ok ({ rows := st.rows ++ [row], nextId := st.nextId + 1 }, row)

/-- Update of one stored row by an `UpdateMcpServerData` payload (same
field-wise semantics as `applyUpdate`). -/
def applyUpdateRow (r : ServerRow) (u : UpdateMcpServerData) : ServerRow :=
  { r with
    name := u.name.getD r.name
    source_ids := u.source_ids.getD r.source_ids }

/-- Modelled from the spec: `ServerStore.update (excluding endpoint)` applied
to the row with the given id. -/
def updateServer (st : StoreState) (sid : Nat) (u : UpdateMcpServerData) : StoreState :=
  { st with rows := st.rows.map (fun r => if r.sid = sid then applyUpdateRow r u else r) }

/-- Modelled from the spec: soft deletion (`DELETE /api/v1/mcp-servers/:id`
sets the `deleted_at` timestamp; the row remains). -/
def softDelete (st : StoreState) (sid : Nat) : StoreState :=
  { st with rows := st.rows.map (fun r => if r.sid = sid then { r with deleted := true } else r) }

/-- Modelled from the spec: hard deletion removes the row, which is the only
way an endpoint is released. -/
def hardDelete (st : StoreState) (sid : Nat) : StoreState :=
  { st with rows := st.rows.filter (fun r => r.sid ≠ sid) }

/-- States reachable from the empty store through the documented operations. -/
inductive Reachable (pool : List String) : StoreState → Prop
  | init : Reachable pool emptyStore
  | create {st st' row d} : Reachable pool st →
      createServer pool st d = .ok (st', row) → Reachable pool st'
  | update {st} (sid : Nat) (u : UpdateMcpServerData) : Reachable pool st →
      Reachable pool (updateServer st sid u)
  | soft {st} (sid : Nat) : Reachable pool st → Reachable pool (softDelete st sid)
  | hard {st} (sid : Nat) : Reachable pool st → Reachable pool (hardDelete st sid)

/-! ## Source metadata (C3)

The closed variant per source type comes from `mcp-admin-ui/src/services/sources.ts`
(`OutlookMetadata` / `SnowflakeMetadata` / `BoxMetadata`); the backend-side
validator (`SourceValidator.validate_metadata`, referenced by CLAUDE.md note 10)
is not among the provided sources and is modelled from the spec.  Metadata is
embedded as a JSON-object-like association list of string fields. -/

inductive SourceType where
  | outlook
  | snowflake
  | box
  deriving Repr, DecidableEq

/-- The field set of each type's metadata variant, from the interfaces in
`sources.ts`. -/
def requiredFields : SourceType → List String
  | .outlook => ["tenant_id", "graph_client_id", "graph_client_secret", "graph_user_id"]
  | .snowflake => ["snowflake_account_url", "snowflake_pat",
      "snowflake_semantic_model_file", "snowflake_cortex_search_service"]
  | .box => ["box_client_id", "box_client_secret", "box_subject_type", "box_subject_id"]

abbrev Metadata := List (String × String)

def mKeys (m : Metadata) : List String := m.map Prod.fst

/-- Modelled from the spec: `SourceValidator.validate_metadata` (utils/, not
among the provided sources) — "metadata shape must match the declared type;
unknown/missing required fields are rejected before persistence", failing
with a `ValidationError` naming the offending field. -/
def validateMetadata (t : SourceType) (m : Metadata) : Except String Unit :=
  match (requiredFields t).find? (fun f => !(mKeys m).contains f) with
  | some f => .error ("missing required field: " ++ f)
  | none =>
    match (mKeys m).find? (fun k => !(requiredFields t).contains k) with
    | some k => .error ("unknown field: " ++ k)
    | none => .ok ()

/-- The `handleTypeChange` handler from `SourceForm.tsx` lines 44-71: on every type
change the form state is reset to exactly the variant's field set (empty
strings, except `box_subject_type` which defaults to `"user"`). -/
def handleTypeChange : SourceType → Metadata
  | .outlook =>
      [("tenant_id", ""), ("graph_client_id", ""),
       ("graph_client_secret", ""), ("graph_user_id", "")]
  | .snowflake =>
      [("snowflake_account_url", ""), ("snowflake_pat", ""),
       ("snowflake_semantic_model_file", ""), ("snowflake_cortex_search_service", "")]
  | .box =>
      [("box_client_id", ""), ("box_client_secret", ""),
       ("box_subject_type", "user"), ("box_subject_id", "")]

/-! ## The API client (C8)

`ApiService.request` from `mcp-admin-ui/src/services/api.ts` (provided as an
unnamed source file): it awaits `fetch`, tries `response.json()` with the
parse failure caught and replaced by `null`, and resolves to
`{ data, status, ok }`.  The network and the JSON parser are parameters:
`net` stands for `fetch` (total: a received HTTP response), `parseJson` for
`response.json()` (`Except` models the parser throwing). -/

structure HttpResponse where
  status : Nat
  ok : Bool
  body : String

structure ApiResponse (α : Type) where
  data : Option α
  status : Nat
  ok : Bool
  deriving Repr, DecidableEq

structure RequestConfig where
  method : String
  body : Option String
  deriving Repr, DecidableEq

def request {α : Type} (net : String → RequestConfig → HttpResponse)
    (parseJson : String → Except String α) (endpoint : String)
    (cfg : RequestConfig) : ApiResponse α :=
  let resp := net endpoint cfg
  { data :=
      match parseJson resp.body with
      | .ok j => some j
      | .error _ => none
    status := resp.status
    ok := resp.ok }

def apiGet {α : Type} (net : String → RequestConfig → HttpResponse)
    (parseJson : String → Except String α) (endpoint : String) : ApiResponse α :=
  request net parseJson endpoint { method := "GET", body := none }

def apiPost {α : Type} (net : String → RequestConfig → HttpResponse)
    (parseJson : String → Except String α) (endpoint : String)
    (body : Option String) : ApiResponse α :=
  request net parseJson endpoint { method := "POST", body := body }

def apiPut {α : Type} (net : String → RequestConfig → HttpResponse)
    (parseJson : String → Except String α) (endpoint : String)
    (body : Option String) : ApiResponse α :=
  request net parseJson endpoint { method := "PUT", body := body }

def apiDelete {α : Type} (net : String → RequestConfig → HttpResponse)
    (parseJson : String → Except String α) (endpoint : String) : ApiResponse α :=
  request net parseJson endpoint { method := "DELETE", body := none }

/-! ## Aggregation engine (C5, C6, C7)

`aggregated_search` / `aggregated_fetch` in the backend's `main.py` are not
among the provided sources; they are modelled from the spec (§4.5) and
CLAUDE.md.  Handler completion order is modelled as list order. -/

inductive FetchOutcome (β : Type) where
  | ok (record : β)
  | notFound
  | failure (msg : String)
  deriving Repr, DecidableEq

/-- A fetch-capable handler: its routing id_prefix (`idPfx` here) and its
`_fetch_impl`, taking the backend-native id. -/
structure FetchHandler (β : Type) where
  hname : String
  idPfx : String
  fetchImpl : String → FetchOutcome β

inductive FetchResult (β : Type) where
  | ok (record : β)
  | unknownPfx
  | notFound
  | failure (msg : String)
  deriving Repr, DecidableEq

/-- Split a character list at the first occurrence of `::`; `none` when no
`::` occurs (Python's `opaque_id.split("::", 1)` yielding a single part). -/
def splitOnColons : List Char → Option (List Char × List Char)
  | [] => none
  | ':' :: ':' :: rest => some ([], rest)
  | c :: rest =>
    match splitOnColons rest with
    | some pr => some (c :: pr.1, pr.2)
    | none => none

/-- The part of an opaque id before the first `::` (the whole id when no
`::` occurs). -/
def pfxPart (s : String) : String :=
  match splitOnColons s.data with
  | some pr => ⟨pr.1⟩
  | none => s

/-- The part of an opaque id after the first `::` (empty when no `::`
occurs). -/
def nativePart (s : String) : String :=
  match splitOnColons s.data with
  | some pr => ⟨pr.2⟩
  | none => ""

/-- Modelled from the spec: same-prefix handlers are tried one at a time in
order; the first hit wins; `NotFound` falls through to the next handler; any
other classified error short-circuits.  Returns the result together with the
list of handlers actually invoked. -/
def tryHandlers {β : Type} (hs : List (FetchHandler β)) (nid : String) :
    FetchResult β × List (FetchHandler β) :=
  match hs with
  | [] => (.notFound, [])
  | h :: t =>
    match h.fetchImpl nid with
    | .ok r => (.ok r, [h])
    | .failure m => (.failure m, [h])
    | .notFound =>
      let rest := tryHandlers t nid
      (rest.1, h :: rest.2)

/-- Modelled from the spec: `aggregatedFetch` — split the opaque id on the
first `::`, keep only active handlers whose id_prefix equals the left part,
return `unknownPfx` (invoking nothing) when none matches.  Returns the result
together with the list of handlers invoked. -/
def aggregatedFetch {β : Type} (hs : List (FetchHandler β)) (opaqueId : String) :
    FetchResult β × List (FetchHandler β) :=
  let matching := hs.filter (fun h => h.idPfx == pfxPart opaqueId)
  match matching with
  | [] => (.unknownPfx, [])
  | _ :: _ => tryHandlers matching (nativePart opaqueId)

/-- A search-capable handler: `_search_impl` either returns its result list
or raises (modelled by `Except`). -/
structure SearchHandler (ρ : Type) where
  hname : String
  searchImpl : String → Except String (List ρ)

structure AggSearchResult (ρ : Type) where
  results : List ρ
  handlers_succeeded : Nat
  handlers_failed : Nat
  ok : Bool
  deriving Repr, DecidableEq

/-- Modelled from the spec: run every handler's search, catching each
failure independently; collect successful results and count outcomes. -/
def runSearchHandlers {ρ : Type} (hs : List (SearchHandler ρ)) (q : String) :
    List ρ × Nat × Nat :=
  match hs with
  | [] => ([], 0, 0)
  | h :: t =>
    let rest := runSearchHandlers t q
    match h.searchImpl q with
    | .ok rs => (rs ++ rest.1, rest.2.1 + 1, rest.2.2)
    | .error _ => (rest.1, rest.2.1, rest.2.2 + 1)

/-- Modelled from the spec: `aggregatedSearch` — bulkhead-isolated fan-out;
the aggregate reports failure exactly when at least one handler was
configured and none succeeded; zero configured handlers is an
empty-but-successful result. -/
def aggregatedSearch {ρ : Type} (hs : List (SearchHandler ρ)) (q : String) :
    AggSearchResult ρ :=
  let r := runSearchHandlers hs q
  { results := r.1
    handlers_succeeded := r.2.1
    handlers_failed := r.2.2
    ok := hs.isEmpty || decide (0 < r.2.1) }

/-! ## Helper lemmas -/

theorem contains_eq_mem_dec (l : List String) (a : String) :
    l.contains a = decide (a ∈ l) := by
  simp [List.contains]

theorem keys_appendNat (key : String) (v : Option Nat) :
    (appendNat key v).map Prod.fst = if natTruthy v then [key] else [] := by
  cases v with
  | none => rfl
  | some n =>
    by_cases h : n = 0 <;> simp [appendNat, natTruthy, h]

theorem keys_appendStr (key : String) (v : Option String) :
    (appendStr key v).map Prod.fst = if strTruthy v then [key] else [] := by
  cases v with
  | none => rfl
  | some s =>
    by_cases h : s.isEmpty <;> simp [appendStr, strTruthy, h]

theorem mem_ite_singleton (a key : String) (b : Bool) :
    (a ∈ if b then [key] else []) ↔ (b = true ∧ a = key) := by
  cases b <;> simp

theorem toggle_of_mem (ids : List String) (id : String) (h : id ∈ ids) :
    handleSourceToggle ids id = ids.filter (fun x => x != id) := by
  simp [handleSourceToggle, contains_eq_mem_dec, h]

theorem toggle_of_not_mem (ids : List String) (id : String) (h : id ∉ ids) :
    handleSourceToggle ids id = ids ++ [id] := by
  simp [handleSourceToggle, contains_eq_mem_dec, h]

theorem filter_ne_eq_self (ids : List String) (id : String) (h : id ∉ ids) :
    ids.filter (fun x => x != id) = ids :=
  List.filter_eq_self.mpr (fun x hx => by
    simp only [bne_iff_ne, ne_eq, decide_eq_true_eq]
    intro he
    exact h (he ▸ hx))

/-! ## Claim theorems -/

/-- C1: Endpoint immutability — the update payload type (`UpdateMcpServerData`)
and the edit form state carry only `name` and `source_ids`; applying any
update to a Virtual Server record, on the client view and on every stored
row, leaves the endpoint (and identity) unchanged. -/
theorem C1_endpoint_immutability :
    (∀ (s : McpServer) (u : UpdateMcpServerData),
      (applyUpdate s u).endpoint = s.endpoint ∧
      (applyUpdate s u).id = s.id ∧
      (applyUpdate s u).created_at = s.created_at) ∧
    (∀ (s : McpServer) (fd : McpServerFormData),
      (applyUpdate s (formSubmitPayload fd)).endpoint = s.endpoint) ∧
    (∀ (st : StoreState) (sid : Nat) (u : UpdateMcpServerData),
      (updateServer st sid u).rows.map ServerRow.endpoint
        = st.rows.map ServerRow.endpoint ∧
      (updateServer st sid u).rows.map ServerRow.sid
        = st.rows.map ServerRow.sid) := by
  refine ⟨fun s u => ⟨rfl, rfl, rfl⟩, fun s fd => rfl, fun st sid u => ⟨?_, ?_⟩⟩ <;>
  · simp only [updateServer, List.map_map]
    refine List.map_congr_left (fun r _ => ?_)
    by_cases h : r.sid = sid <;> simp [applyUpdateRow, h]

/-- C9 counterexample: on the duplicate-free list `["a", "b"]`, toggling
`"a"` twice yields `["b", "a"]`, not the original list — the claim that two
applications of `handleSourceToggle` restore the original list is false. -/
theorem C9_counterexample :
    (["a", "b"] : List String).Nodup ∧
    handleSourceToggle (handleSourceToggle ["a", "b"] "a") "a" = ["b", "a"] ∧
    handleSourceToggle (handleSourceToggle ["a", "b"] "a") "a" ≠ ["a", "b"] := by
  refine ⟨by decide, by decide, by decide⟩

/-- C9 (amended): one application of `handleSourceToggle` removes all
occurrences of a present id and appends an absent one; on duplicate-free
input the result is duplicate-free; applying the toggle twice yields a
permutation of the original list (the exact original when the id was
absent, since a present id is re-appended at the end). -/
theorem C9_toggle_amended (ids : List String) (id : String) (hnd : ids.Nodup) :
    (id ∈ ids → handleSourceToggle ids id = ids.filter (fun x => x != id)) ∧
    (id ∉ ids → handleSourceToggle ids id = ids ++ [id]) ∧
    (handleSourceToggle ids id).Nodup ∧
    (handleSourceToggle (handleSourceToggle ids id) id).Perm ids ∧
    (id ∉ ids → handleSourceToggle (handleSourceToggle ids id) id = ids) := by
  have hid_not_mem_filter : id ∉ ids.filter (fun x => x != id) := by
    intro hmem
    have := List.of_mem_filter hmem
    simp at this
  have habsent_twice : id ∉ ids → handleSourceToggle (handleSourceToggle ids id) id = ids := by
    intro h
    have h2 : id ∈ ids ++ [id] := by simp
    rw [toggle_of_not_mem ids id h, toggle_of_mem _ _ h2, List.filter_append,
      filter_ne_eq_self ids id h]
    simp
  refine ⟨toggle_of_mem ids id, toggle_of_not_mem ids id, ?_, ?_, habsent_twice⟩
  · by_cases h : id ∈ ids
    · rw [toggle_of_mem ids id h]; exact hnd.filter _
    · rw [toggle_of_not_mem ids id h]
      simp [List.nodup_append, hnd, h]
  · by_cases h : id ∈ ids
    · rw [toggle_of_mem ids id h, toggle_of_not_mem _ _ hid_not_mem_filter]
      have p1 : (ids.filter (fun x => x != id) ++ [id]).Perm
          (id :: ids.filter (fun x => x != id)) := List.perm_append_singleton _ _
      have p2 : id :: ids.filter (fun x => x != id) = id :: ids.erase id := by
        rw [hnd.erase_eq_filter]
      have p3 : (id :: ids.erase id).Perm ids := (List.perm_cons_erase h).symm
      exact p1.trans (p2 ▸ p3)
    · rw [habsent_twice h]

theorem C9_toggle_amended_witness :
    handleSourceToggle (handleSourceToggle ["a", "b"] "c") "c" = ["a", "b"] :=
  (C9_toggle_amended ["a", "b"] "c" (by decide)).2.2.2.2 (by decide)

/-- C10: `logsApi.getLogs` appends a query parameter exactly when the
corresponding option is JavaScript-truthy, so `limit: 0` or `offset: 0` is
omitted and the request URL is identical to the one produced without the
parameter. -/
theorem C10_log_query_zero_dropped :
    (∀ p : GetLogsParams,
      (("limit" ∈ (getLogsSearchParams p).map Prod.fst) ↔ natTruthy p.limit = true) ∧
      (("offset" ∈ (getLogsSearchParams p).map Prod.fst) ↔ natTruthy p.offset = true) ∧
      (("operation" ∈ (getLogsSearchParams p).map Prod.fst) ↔ strTruthy p.operation = true) ∧
      (("level" ∈ (getLogsSearchParams p).map Prod.fst) ↔ strTruthy p.level = true) ∧
      (("correlation_id" ∈ (getLogsSearchParams p).map Prod.fst) ↔
        strTruthy p.correlation_id = true)) ∧
    (∀ p : GetLogsParams,
      getLogsUrl { p with limit := some 0 } = getLogsUrl { p with limit := none }) ∧
    (∀ p : GetLogsParams,
      getLogsUrl { p with offset := some 0 } = getLogsUrl { p with offset := none }) := by
  refine ⟨fun p => ?_, fun p => ?_, fun p => ?_⟩
  · have hmaps : (getLogsSearchParams p).map Prod.fst =
        (if natTruthy p.limit then ["limit"] else []) ++
        (if natTruthy p.offset then ["offset"] else []) ++
        (if strTruthy p.operation then ["operation"] else []) ++
        (if strTruthy p.level then ["level"] else []) ++
        (if strTruthy p.correlation_id then ["correlation_id"] else []) := by
      simp [getLogsSearchParams, keys_appendNat, keys_appendStr]
    rw [hmaps]
    refine ⟨?_, ?_, ?_, ?_, ?_⟩ <;>
      simp [List.mem_append, mem_ite_singleton]
  · simp [getLogsUrl, getLogsSearchParams, appendNat]
  · simp [getLogsUrl, getLogsSearchParams, appendNat]

/-- C8: `ApiService.request` is total over any received HTTP response: it
resolves to `{ data, status, ok }` with `status` and `ok` copied from the
response, `data = none` (null) whenever the body fails to parse as JSON and
the parsed value otherwise; every HTTP-verb wrapper returns exactly this
`request` shape. -/
theorem C8_request_total {α : Type} (net : String → RequestConfig → HttpResponse)
    (parseJson : String → Except String α) (endpoint : String) (cfg : RequestConfig) :
    ((request net parseJson endpoint cfg).status = (net endpoint cfg).status) ∧
    ((request net parseJson endpoint cfg).ok = (net endpoint cfg).ok) ∧
    (∀ e, parseJson (net endpoint cfg).body = .error e →
      (request net parseJson endpoint cfg).data = none) ∧
    (∀ j, parseJson (net endpoint cfg).body = .ok j →
      (request net parseJson endpoint cfg).data = some j) ∧
    (apiGet net parseJson endpoint =
      request net parseJson endpoint { method := "GET", body := none }) ∧
    (∀ b, apiPost net parseJson endpoint b =
      request net parseJson endpoint { method := "POST", body := b }) ∧
    (∀ b, apiPut net parseJson endpoint b =
      request net parseJson endpoint { method := "PUT", body := b }) ∧
    (apiDelete net parseJson endpoint =
      request net parseJson endpoint { method := "DELETE", body := none }) := by
  refine ⟨rfl, rfl, ?_, ?_, rfl, fun b => rfl, fun b => rfl, rfl⟩
  · intro e he
    simp [request, he]
  · intro j hj
    simp [request, hj]

def c8net : String → RequestConfig → HttpResponse :=
  fun _ _ => { status := 200, ok := true, body := "7" }

def c8parse : String → Except String Nat :=
  fun s => if s = "7" then .ok 7 else .error "invalid json"

theorem C8_request_total_witness :
    (request c8net c8parse "/api/v1/me" { method := "GET", body := none }).data = some 7 :=
  (C8_request_total c8net c8parse "/api/v1/me" { method := "GET", body := none }).2.2.2.1
    7 rfl

/-- C3: the source type is one of the three fixed tags; each type's variant
has exactly four fields; metadata validates exactly when its key set matches
the declared type's field set (missing or unknown fields are rejected); the
source form's type-change handler constructs exactly this field set. -/
theorem C3_source_metadata_closed (t : SourceType) (m : Metadata) :
    (t = .outlook ∨ t = .snowflake ∨ t = .box) ∧
    ((requiredFields t).length = 4) ∧
    (validateMetadata t m = .ok () ↔
      ((∀ f ∈ requiredFields t, f ∈ mKeys m) ∧
       (∀ k ∈ mKeys m, k ∈ requiredFields t))) ∧
    (mKeys (handleTypeChange t) = requiredFields t) ∧
    (validateMetadata t (handleTypeChange t) = .ok ()) := by
  refine ⟨by cases t <;> simp, by cases t <;> rfl, ?_, by cases t <;> rfl,
    by cases t <;> rfl⟩
  constructor
  · intro hok
    rcases hf : (requiredFields t).find? (fun f => !(mKeys m).contains f) with _ | f
    · rcases hk : (mKeys m).find? (fun k => !(requiredFields t).contains k) with _ | k
      · rw [List.find?_eq_none] at hf hk
        refine ⟨fun f hfm => ?_, fun k hkm => ?_⟩
        · have := hf f hfm
          simpa [contains_eq_mem_dec] using this
        · have := hk k hkm
          simpa [contains_eq_mem_dec] using this
      · unfold validateMetadata at hok
        rw [hf, hk] at hok
        simp at hok
    · unfold validateMetadata at hok
      rw [hf] at hok
      simp at hok
  · rintro ⟨h1, h2⟩
    have hf : (requiredFields t).find? (fun f => !(mKeys m).contains f) = none := by
      rw [List.find?_eq_none]
      intro f hfm
      simp [contains_eq_mem_dec, h1 f hfm]
    have hk : (mKeys m).find? (fun k => !(requiredFields t).contains k) = none := by
      rw [List.find?_eq_none]
      intro k hkm
      simp [contains_eq_mem_dec, h2 k hkm]
    unfold validateMetadata
    rw [hf, hk]

theorem allocate_ok_iff (pool : List String) (st : StoreState) (e : String) :
    allocate pool st = .ok e ↔
      (e ∉ usedEndpoints st ∧ ∃ l1 l2, pool = l1 ++ e :: l2 ∧
        ∀ x ∈ l1, x ∈ usedEndpoints st) := by
  constructor
  · intro hok
    rcases h : pool.find? (fun c => !(usedEndpoints st).contains c) with _ | e'
    · unfold allocate at hok
      rw [h] at hok
      simp at hok
    · unfold allocate at hok
      rw [h] at hok
      simp only [Except.ok.injEq] at hok
      subst hok
      rw [List.find?_eq_some] at h
      obtain ⟨hp, l1, l2, hpool, hall⟩ := h
      refine ⟨by simpa [contains_eq_mem_dec] using hp, l1, l2, hpool, fun x hx => ?_⟩
      have := hall x hx
      simpa [contains_eq_mem_dec] using this
  · rintro ⟨hne, l1, l2, hpool, hall⟩
    have h : pool.find? (fun c => !(usedEndpoints st).contains c) = some e := by
      rw [List.find?_eq_some]
      refine ⟨by simp [contains_eq_mem_dec, hne], l1, l2, hpool, fun a ha => ?_⟩
      simp [contains_eq_mem_dec, hall a ha]
    unfold allocate
    rw [h]

theorem allocate_err_iff (pool : List String) (st : StoreState) :
    allocate pool st = .error .PoolExhausted ↔ ∀ e ∈ pool, e ∈ usedEndpoints st := by
  constructor
  · intro herr
    rcases h : pool.find? (fun c => !(usedEndpoints st).contains c) with _ | e'
    · rw [List.find?_eq_none] at h
      intro e he
      have := h e he
      simpa [contains_eq_mem_dec] using this
    · unfold allocate at herr
      rw [h] at herr
      simp at herr
  · intro hall
    have h : pool.find? (fun c => !(usedEndpoints st).contains c) = none := by
      rw [List.find?_eq_none]
      intro e he
      simp [contains_eq_mem_dec, hall e he]
    unfold allocate
    rw [h]

theorem createServer_ok_inv {pool : List String} {st : StoreState}
    {d : CreateMcpServerData} {st' : StoreState} {row : ServerRow}
    (h : createServer pool st d = .ok (st', row)) :
    allocate pool st = .ok row.endpoint ∧
    st' = { rows := st.rows ++ [row], nextId := st.nextId + 1 } ∧
    row.deleted = false ∧ row.name = d.name ∧ row.source_ids = d.source_ids := by
  unfold createServer at h
  rcases ha : allocate pool st with e | ep
  · rw [ha] at h
    simp at h
  · rw [ha] at h
    simp only [Except.ok.injEq, Prod.mk.injEq] at h
    obtain ⟨h1, h2⟩ := h
    subst h2
    exact ⟨rfl, h1.symm, rfl, rfl, rfl⟩

theorem createServer_endpoint (pool : List String) (st : StoreState)
    (d : CreateMcpServerData) :
    (createServer pool st d).map (fun p => p.2.endpoint) = allocate pool st := by
  unfold createServer
  rcases ha : allocate pool st with e | ep <;> simp [Except.map]

theorem usedEndpoints_rows (rows : List ServerRow) (n m : Nat) :
    usedEndpoints ⟨rows, n⟩ = usedEndpoints ⟨rows, m⟩ := rfl

theorem usedEndpoints_append_live (st : StoreState) (row : ServerRow) (n : Nat)
    (h : row.deleted = false) :
    usedEndpoints ⟨st.rows ++ [row], n⟩ = usedEndpoints st ++ [row.endpoint] := by
  simp [usedEndpoints, liveRows, List.filter_append, h]

theorem usedEndpoints_update (st : StoreState) (sid : Nat) (u : UpdateMcpServerData) :
    usedEndpoints (updateServer st sid u) = usedEndpoints st := by
  rcases st with ⟨rows, n⟩
  simp only [updateServer, usedEndpoints, liveRows]
  induction rows with
  | nil => rfl
  | cons r t ih =>
    by_cases h : r.sid = sid <;>
      by_cases hd : r.deleted <;>
        simp [h, hd, applyUpdateRow] <;> exact ih

theorem liveRows_soft (st : StoreState) (sid : Nat) :
    liveRows (softDelete st sid) = (liveRows st).filter (fun r => r.sid ≠ sid) := by
  rcases st with ⟨rows, n⟩
  simp only [softDelete, liveRows]
  induction rows with
  | nil => rfl
  | cons r t ih =>
    by_cases h : r.sid = sid <;>
      by_cases hd : r.deleted <;>
        simp [h, hd, ih]

theorem usedEndpoints_soft_sublist (st : StoreState) (sid : Nat) :
    (usedEndpoints (softDelete st sid)).Sublist (usedEndpoints st) := by
  have h : usedEndpoints (softDelete st sid)
      = ((liveRows st).filter (fun r => r.sid ≠ sid)).map ServerRow.endpoint := by
    rw [usedEndpoints, liveRows_soft]
  rw [h]
  exact (List.filter_sublist _).map _

theorem liveRows_hard (st : StoreState) (sid : Nat) :
    liveRows (hardDelete st sid) = (liveRows st).filter (fun r => r.sid ≠ sid) := by
  rcases st with ⟨rows, n⟩
  simp only [hardDelete, liveRows]
  induction rows with
  | nil => rfl
  | cons r t ih =>
    by_cases h : r.sid = sid <;>
      by_cases hd : r.deleted <;>
        simp [h, hd, ih, Bool.and_comm]

theorem usedEndpoints_hard_sublist (st : StoreState) (sid : Nat) :
    (usedEndpoints (hardDelete st sid)).Sublist (usedEndpoints st) := by
  have h : usedEndpoints (hardDelete st sid)
      = ((liveRows st).filter (fun r => r.sid ≠ sid)).map ServerRow.endpoint := by
    rw [usedEndpoints, liveRows_hard]
  rw [h]
  exact (List.filter_sublist _).map _

theorem reachable_invariant {pool : List String} {st : StoreState}
    (h : Reachable pool st) :
    (usedEndpoints st).Nodup ∧ ∀ e ∈ usedEndpoints st, e ∈ pool := by
  induction h with
  | init => simp [usedEndpoints, liveRows, emptyStore]
  | create hre hc ih =>
    obtain ⟨ha, hst, hdel, _, _⟩ := createServer_ok_inv hc
    obtain ⟨hfree, l1, l2, hpool, _⟩ := (allocate_ok_iff _ _ _).mp ha
    subst hst
    rw [usedEndpoints_append_live _ _ _ hdel]
    constructor
    · simp [List.nodup_append, ih.1, hfree]
    · intro e he
      rcases List.mem_append.mp he with h1 | h2
      · exact ih.2 e h1
      · simp at h2
        subst h2
        rw [hpool]
        simp
  | update sid u hre ih =>
    rw [usedEndpoints_update]
    exact ih
  | soft sid hre ih =>
    exact ⟨ih.1.sublist (usedEndpoints_soft_sublist _ sid),
      fun e he => ih.2 e ((usedEndpoints_soft_sublist _ sid).subset he)⟩
  | hard sid hre ih =>
    exact ⟨ih.1.sublist (usedEndpoints_hard_sublist _ sid),
      fun e he => ih.2 e ((usedEndpoints_hard_sublist _ sid).subset he)⟩

theorem live_le_pool {pool : List String} {st : StoreState}
    (h : Reachable pool st) : (liveRows st).length ≤ pool.length := by
  obtain ⟨hnd, hsub⟩ := reachable_invariant h
  have hle : (usedEndpoints st).length ≤ pool.length :=
    (List.subperm_of_subset hnd (fun e he => hsub e he)).length_le
  simpa [usedEndpoints, List.length_map] using hle

def c3meta : Metadata :=
  [("tenant_id", "t1"), ("graph_client_id", "c1"),
   ("graph_client_secret", "s1"), ("graph_user_id", "u1")]

theorem C3_source_metadata_closed_witness :
    validateMetadata .outlook c3meta = .ok () :=
  (C3_source_metadata_closed .outlook c3meta).2.2.1.mpr (by decide)

/-- C2: creation never takes an endpoint from the client (the assigned
endpoint is `allocate`'s choice, independent of the payload); `allocate`
returns the first pool candidate whose endpoint is not used by a
non-soft-deleted server and fails with `PoolExhausted` exactly when every
candidate is in use; consequently, in every reachable store state the number
of live servers is bounded by the pool size. -/
theorem C2_endpoint_pool_allocation :
    (∀ (pool : List String) (st : StoreState) (e : String),
      allocate pool st = .ok e ↔
        (e ∉ usedEndpoints st ∧ ∃ l1 l2, pool = l1 ++ e :: l2 ∧
          ∀ x ∈ l1, x ∈ usedEndpoints st)) ∧
    (∀ (pool : List String) (st : StoreState),
      allocate pool st = .error .PoolExhausted ↔
        ∀ e ∈ pool, e ∈ usedEndpoints st) ∧
    (∀ (pool : List String) (st : StoreState) (d₁ d₂ : CreateMcpServerData),
      (createServer pool st d₁).map (fun p => p.2.endpoint)
        = (createServer pool st d₂).map (fun p => p.2.endpoint)) ∧
    (∀ (pool : List String) (st : StoreState), Reachable pool st →
      (liveRows st).length ≤ pool.length) :=
  ⟨allocate_ok_iff, allocate_err_iff,
    fun pool st d₁ d₂ => by rw [createServer_endpoint, createServer_endpoint],
    fun pool st h => live_le_pool h⟩

theorem C2_endpoint_pool_allocation_witness :
    allocate ["ep1", "ep2"] emptyStore = .ok "ep1" ∧
    (liveRows emptyStore).length ≤ 2 :=
  ⟨(C2_endpoint_pool_allocation.1 ["ep1", "ep2"] emptyStore "ep1").mpr
      ⟨by decide, [], ["ep2"], rfl, by simp⟩,
    C2_endpoint_pool_allocation.2.2.2 ["ep1", "ep2"] emptyStore Reachable.init⟩

def c4row : ServerRow :=
  { sid := 0, name := "old", endpoint := "ep1", source_ids := [], deleted := true }

def c4st : StoreState := { rows := [c4row], nextId := 1 }

/-- C4 counterexample: a soft-deleted (not yet hard-deleted) server holding
`"ep1"` does not keep `"ep1"` reserved — the very next creation against the
pool `["ep1", "ep2"]` is allocated `"ep1"` again, contradicting the claim
that `E` becomes allocatable only after hard deletion. -/
theorem C4_counterexample :
    c4row ∈ c4st.rows ∧ c4row.deleted = true ∧ c4row.endpoint = "ep1" ∧
    (createServer ["ep1", "ep2"] c4st { name := "new", source_ids := [] }).map
      (fun p => p.2.endpoint) = .ok "ep1" := by
  refine ⟨by decide, rfl, rfl, ?_⟩
  rfl

/-- C4 (amended): endpoints are reserved exactly by non-soft-deleted
servers.  A creation is never allocated the endpoint of a live server; soft
deletion immediately drops the server from the live set (so its endpoint is
no longer in the used set scanned by `allocate`); and whenever some pool
candidate is free of live servers, allocation succeeds with such a free
candidate — reservation ends at soft deletion, not at hard deletion. -/
theorem C4_soft_delete_amended :
    (∀ (pool : List String) (st : StoreState) (d : CreateMcpServerData)
      (st' : StoreState) (row : ServerRow),
      createServer pool st d = .ok (st', row) →
      ∀ r ∈ st.rows, r.deleted = false → row.endpoint ≠ r.endpoint) ∧
    (∀ (st : StoreState) (sid : Nat),
      liveRows (softDelete st sid) = (liveRows st).filter (fun r => r.sid ≠ sid)) ∧
    (∀ (pool : List String) (st : StoreState) (e : String),
      e ∈ pool → e ∉ usedEndpoints st →
      ∃ e2, allocate pool st = .ok e2 ∧ e2 ∉ usedEndpoints st) := by
  refine ⟨?_, liveRows_soft, ?_⟩
  · intro pool st d st' row hc r hr hlive heq
    obtain ⟨ha, _, _, _, _⟩ := createServer_ok_inv hc
    obtain ⟨hfree, _⟩ := (allocate_ok_iff _ _ _).mp ha
    apply hfree
    rw [heq]
    exact List.mem_map_of_mem ServerRow.endpoint (List.mem_filter.mpr ⟨hr, by simp [hlive]⟩)
  · intro pool st e hpool hfree
    rcases ha : allocate pool st with err | e2
    · cases err
      exact absurd ((allocate_err_iff pool st).mp ha e hpool) hfree
    · exact ⟨e2, rfl, ((allocate_ok_iff pool st e2).mp ha).1⟩

theorem C4_soft_delete_amended_witness :
    ∃ e2, allocate ["ep1", "ep2"] emptyStore = .ok e2 ∧
      e2 ∉ usedEndpoints emptyStore :=
  C4_soft_delete_amended.2.2 ["ep1", "ep2"] emptyStore "ep1" (by decide) (by decide)

theorem tryHandlers_invoked_mem {β : Type} (hs : List (FetchHandler β)) (nid : String) :
    ∀ g ∈ (tryHandlers hs nid).2, g ∈ hs := by
  induction hs with
  | nil => simp [tryHandlers]
  | cons h t ih =>
    intro g hg
    cases hf : h.fetchImpl nid <;> simp [tryHandlers, hf] at hg
    case ok r =>
      rw [hg]
      exact List.mem_cons_self h t
    case failure m =>
      rw [hg]
      exact List.mem_cons_self h t
    case notFound =>
      rcases hg with hg | hg
      · rw [hg]
        exact List.mem_cons_self h t
      · exact List.mem_cons_of_mem h (ih g hg)

theorem length_filter_add_length_filter_not {α : Type} (l : List α) (p : α → Bool) :
    (l.filter p).length + (l.filter (fun a => !p a)).length = l.length := by
  induction l with
  | nil => rfl
  | cons a t ih =>
    cases hp : p a <;> simp [hp, ih] <;> omega

theorem runSearch_spec {ρ : Type} (hs : List (SearchHandler ρ)) (q : String) :
    (runSearchHandlers hs q).1
      = (hs.filterMap (fun h => (h.searchImpl q).toOption)).flatten ∧
    (runSearchHandlers hs q).2.1
      = (hs.filter (fun h => (h.searchImpl q).isOk)).length ∧
    (runSearchHandlers hs q).2.2
      = (hs.filter (fun h => !(h.searchImpl q).isOk)).length := by
  induction hs with
  | nil => exact ⟨rfl, rfl, rfl⟩
  | cons h t ih =>
    obtain ⟨ih1, ih2, ih3⟩ := ih
    cases he : h.searchImpl q <;>
      simp [runSearchHandlers, he, Except.toOption, Except.isOk, Except.toBool,
        ih1, ih2, ih3]

/-- C5: `aggregatedFetch` splits the opaque id on the first `::` and invokes
only handlers whose id_prefix equals the left part; when no active handler
declares that prefix it returns the `unknownPfx` classified failure without
invoking any handler. -/
theorem C5_fetch_routing {β : Type} (hs : List (FetchHandler β)) (opaqueId : String) :
    (∀ g ∈ (aggregatedFetch hs opaqueId).2,
      g.idPfx = pfxPart opaqueId ∧ g ∈ hs) ∧
    ((∀ g ∈ hs, g.idPfx ≠ pfxPart opaqueId) →
      aggregatedFetch hs opaqueId = (.unknownPfx, [])) := by
  constructor
  · intro g hg
    unfold aggregatedFetch at hg
    rcases hm : hs.filter (fun h => h.idPfx == pfxPart opaqueId) with _ | ⟨h0, t0⟩
    · rw [hm] at hg
      simp at hg
    · rw [hm] at hg
      simp only at hg
      have hmem : g ∈ hs.filter (fun h => h.idPfx == pfxPart opaqueId) := by
        rw [hm]
        exact tryHandlers_invoked_mem _ _ g hg
      obtain ⟨hin, hbeq⟩ := List.mem_filter.mp hmem
      exact ⟨eq_of_beq hbeq, hin⟩
  · intro hnone
    have hm : hs.filter (fun h => h.idPfx == pfxPart opaqueId) = [] := by
      rw [List.filter_eq_nil_iff]
      intro h hh
      simpa using hnone h hh
    unfold aggregatedFetch
    rw [hm]

def c5handler : FetchHandler String :=
  { hname := "OutlookHandler", idPfx := "outlook",
    fetchImpl := fun nid => .ok ("record:" ++ nid) }

theorem C5_fetch_routing_witness :
    aggregatedFetch [c5handler] "boxtype::abc123" = (.unknownPfx, []) :=
  (C5_fetch_routing [c5handler] "boxtype::abc123").2 (by
    intro g hg
    simp only [List.mem_singleton] at hg
    subst hg
    decide)

/-- C6: a failing handler neither fails `aggregatedSearch` nor perturbs the
other handlers — removing it leaves the result list and the success count
unchanged and decrements the failure count by one; the results are exactly
the concatenation of the successful handlers' results, the two counters
partition the handler set, and the aggregate reports success whenever at
least one handler succeeds. -/
theorem C6_partial_failure_isolation {ρ : Type} (l1 l2 : List (SearchHandler ρ))
    (hb : SearchHandler ρ) (q e : String)
    (hfail : hb.searchImpl q = .error e) :
    ((aggregatedSearch (l1 ++ hb :: l2) q).results
      = (aggregatedSearch (l1 ++ l2) q).results) ∧
    ((aggregatedSearch (l1 ++ hb :: l2) q).handlers_succeeded
      = (aggregatedSearch (l1 ++ l2) q).handlers_succeeded) ∧
    ((aggregatedSearch (l1 ++ hb :: l2) q).handlers_failed
      = (aggregatedSearch (l1 ++ l2) q).handlers_failed + 1) ∧
    ((aggregatedSearch (l1 ++ hb :: l2) q).results
      = ((l1 ++ hb :: l2).filterMap (fun h => (h.searchImpl q).toOption)).flatten) ∧
    ((aggregatedSearch (l1 ++ hb :: l2) q).handlers_succeeded
      + (aggregatedSearch (l1 ++ hb :: l2) q).handlers_failed
      = (l1 ++ hb :: l2).length) ∧
    ((∃ hgood ∈ l1 ++ l2, (hgood.searchImpl q).isOk = true) →
      (aggregatedSearch (l1 ++ hb :: l2) q).ok = true) := by
  obtain ⟨hr, hs, hf⟩ := runSearch_spec (l1 ++ hb :: l2) q
  obtain ⟨hr2, hs2, hf2⟩ := runSearch_spec (l1 ++ l2) q
  have hbad_opt : (hb.searchImpl q).toOption = none := by
    rw [hfail]; rfl
  have hbad_ok : (hb.searchImpl q).isOk = false := by
    rw [hfail]; rfl
  refine ⟨?_, ?_, ?_, ?_, ?_, ?_⟩
  · show (runSearchHandlers (l1 ++ hb :: l2) q).1 = (runSearchHandlers (l1 ++ l2) q).1
    rw [hr, hr2]
    simp [List.filterMap_append, hbad_opt]
  · show (runSearchHandlers (l1 ++ hb :: l2) q).2.1
      = (runSearchHandlers (l1 ++ l2) q).2.1
    rw [hs, hs2]
    simp [List.filter_append, hbad_ok]
  · show (runSearchHandlers (l1 ++ hb :: l2) q).2.2
      = (runSearchHandlers (l1 ++ l2) q).2.2 + 1
    rw [hf, hf2]
    simp [List.filter_append, hbad_ok]
    omega
  · exact hr
  · show (runSearchHandlers (l1 ++ hb :: l2) q).2.1
      + (runSearchHandlers (l1 ++ hb :: l2) q).2.2 = (l1 ++ hb :: l2).length
    rw [hs, hf]
    exact length_filter_add_length_filter_not _ _
  · rintro ⟨hgood, hmem, hok⟩
    show ((l1 ++ hb :: l2).isEmpty
      || decide (0 < (runSearchHandlers (l1 ++ hb :: l2) q).2.1)) = true
    have hmem2 : hgood ∈ l1 ++ hb :: l2 := by
      rcases List.mem_append.mp hmem with h1 | h2
      · exact List.mem_append.mpr (Or.inl h1)
      · exact List.mem_append.mpr (Or.inr (List.mem_cons_of_mem hb h2))
    have hpos : 0 < (runSearchHandlers (l1 ++ hb :: l2) q).2.1 := by
      rw [hs]
      have : hgood ∈ (l1 ++ hb :: l2).filter (fun h => (h.searchImpl q).isOk) :=
        List.mem_filter.mpr ⟨hmem2, hok⟩
      exact List.length_pos.mpr (List.ne_nil_of_mem this)
    simp [hpos]

def c6h1 : SearchHandler Nat := ⟨"Handler1", fun _ => .ok [1, 2]⟩
def c6h2 : SearchHandler Nat := ⟨"Handler2", fun _ => .error "token expired"⟩
def c6h3 : SearchHandler Nat := ⟨"Handler3", fun _ => .ok [3]⟩

theorem C6_partial_failure_isolation_witness :
    (aggregatedSearch [c6h1, c6h2, c6h3] "invoice").results = [1, 2, 3] ∧
    (aggregatedSearch [c6h1, c6h2, c6h3] "invoice").handlers_succeeded = 2 ∧
    (aggregatedSearch [c6h1, c6h2, c6h3] "invoice").handlers_failed = 1 ∧
    (aggregatedSearch [c6h1, c6h2, c6h3] "invoice").ok = true := by
  have h := C6_partial_failure_isolation [c6h1] [c6h3] c6h2 "invoice" "token expired" rfl
  refine ⟨h.1.trans rfl, h.2.1.trans rfl, h.2.2.1.trans rfl, ?_⟩
  exact h.2.2.2.2.2 ⟨c6h1, by simp, rfl⟩

/-- C7: `aggregatedSearch` reports failure exactly when at least one handler
is configured and every configured handler fails; with zero handlers it
reports success with an empty result list and zero counts. -/
theorem C7_all_fail_escalation {ρ : Type} (hs : List (SearchHandler ρ)) (q : String) :
    ((aggregatedSearch hs q).ok = false ↔
      (hs ≠ [] ∧ ∀ h ∈ hs, (h.searchImpl q).isOk = false)) ∧
    (aggregatedSearch ([] : List (SearchHandler ρ)) q
      = { results := [], handlers_succeeded := 0, handlers_failed := 0, ok := true }) := by
  refine ⟨?_, rfl⟩
  obtain ⟨_, hs2, _⟩ := runSearch_spec hs q
  show ((hs.isEmpty || decide (0 < (runSearchHandlers hs q).2.1)) = false ↔ _)
  rw [hs2]
  constructor
  · intro h
    rcases Bool.or_eq_false_iff.mp h with ⟨h1, h2⟩
    refine ⟨by simpa [List.isEmpty_iff] using h1, ?_⟩
    intro g hg
    by_contra hok
    have hmem : g ∈ hs.filter (fun h => (h.searchImpl q).isOk) :=
      List.mem_filter.mpr ⟨hg, by simpa using hok⟩
    have hpos : 0 < (hs.filter (fun h => (h.searchImpl q).isOk)).length :=
      List.length_pos.mpr (List.ne_nil_of_mem hmem)
    simp [hpos] at h2
  · rintro ⟨hne, hall⟩
    have h1 : hs.isEmpty = false := by
      simpa [List.isEmpty_iff] using hne
    have h2 : hs.filter (fun h => (h.searchImpl q).isOk) = [] := by
      rw [List.filter_eq_nil_iff]
      intro g hg
      simp [hall g hg]
    simp [h1, h2]

def c7bad : SearchHandler Nat := ⟨"OnlyHandler", fun _ => .error "down"⟩

theorem C7_all_fail_escalation_witness :
    (aggregatedSearch [c7bad] "q").ok = false :=
  (C7_all_fail_escalation [c7bad] "q").1.mpr
    ⟨by simp, by
      intro g hg
      simp only [List.mem_singleton] at hg
      subst hg
      rfl⟩

end S2P
